import Mathlib

/-!
Verification of the ingredient-normalization pipeline of the 2AMD20_G19
recipe knowledge-graph repository.

The Python sources are shallowly embedded: strings are Lean `String`s over
their character lists, Python `str.lower`/`str.strip`/`in` are modeled at
the ASCII level (all inputs appearing in the repository and in the theorems
below are ASCII), Python dicts become association lists with in-place
update semantics, floats used as similarity scores become `ℚ`, and the
external sentence-embedding backend (SentenceTransformer / sklearn) is an
explicit parameter, as the spec treats it as an external collaborator.
-/

namespace Food

/-! ## Python string primitives -/

/-- Python whitespace (`str.strip()` default / regex `\s`), ASCII subset. -/
def isPySpace (c : Char) : Bool :=
  c == ' ' || c == '\t' || c == '\n' || c == '\r' || c == '\x0b' || c == '\x0c'

/-- Regex `\d`, ASCII. -/
def isPyDigit (c : Char) : Bool := c.isDigit

/-- Regex `[a-zA-Z]`. -/
def isPyAlpha (c : Char) : Bool := c.isAlpha

/-- Regex `\w` (word character), ASCII. -/
def isPyWord (c : Char) : Bool := c.isAlphanum || c == '_'

/-- Drop characters satisfying `p` from both ends of a character list. -/
def stripList (p : Char → Bool) (cs : List Char) : List Char :=
  ((cs.dropWhile p).reverse.dropWhile p).reverse

/-- Python `s.strip()`. -/
def pyStrip (s : String) : String := ⟨stripList isPySpace s.data⟩

/-- Python `s.strip(chars)` for an explicit character set. -/
def pyStripChars (chars : List Char) (s : String) : String :=
  ⟨stripList (fun c => chars.contains c) s.data⟩

/-- Python `s.lower()`, ASCII. -/
def pyLower (s : String) : String := ⟨s.data.map Char.toLower⟩

/-- `needle` occurs as a contiguous run inside `hay`. -/
def listInfix (needle hay : List Char) : Bool :=
  hay.tails.any fun t => needle.isPrefixOf t

/-- Python `sub in s` substring test. -/
def pyIn (sub s : String) : Bool := listInfix sub.data s.data

/-! ## `src/utils/ingredient_classifier.py` -/

/-- The `IngredientProperties` dataclass.  `allergens=None` is normalized to
the empty list by `__post_init__`, so it is modeled as a plain list. -/
structure IngredientProperties where
  is_meat : Bool := false
  is_poultry : Bool := false
  is_fish : Bool := false
  is_seafood : Bool := false
  is_dairy : Bool := false
  is_egg : Bool := false
  is_gluten_containing : Bool := false
  is_nut : Bool := false
  is_soy : Bool := false
  is_vegetarian : Bool := true
  is_vegan : Bool := true
  is_kosher : Bool := true
  is_halal : Bool := true
  allergens : List String := []
  deriving Repr, DecidableEq

/-- `IngredientProperties.__post_init__`: runs once, at construction time,
on the field values the constructor received. -/
def postInit (p0 : IngredientProperties) : IngredientProperties :=
  let p := p0
  let p := if p.is_meat || p.is_poultry || p.is_fish || p.is_seafood then
    { p with is_vegetarian := false, is_vegan := false } else p
  let p := if p.is_dairy || p.is_egg then { p with is_vegan := false } else p
  let p := if p.is_dairy && !(p.allergens.contains "dairy") then
    { p with allergens := p.allergens ++ ["dairy"] } else p
  let p := if p.is_egg && !(p.allergens.contains "egg") then
    { p with allergens := p.allergens ++ ["egg"] } else p
  let p := if p.is_gluten_containing && !(p.allergens.contains "gluten") then
    { p with allergens := p.allergens ++ ["gluten"] } else p
  let p := if p.is_nut && !(p.allergens.contains "nuts") then
    { p with allergens := p.allergens ++ ["nuts"] } else p
  let p := if p.is_soy && !(p.allergens.contains "soy") then
    { p with allergens := p.allergens ++ ["soy"] } else p
  let p := if p.is_fish && !(p.allergens.contains "fish") then
    { p with allergens := p.allergens ++ ["fish"] } else p
  let p := if p.is_seafood && !(p.allergens.contains "shellfish") then
    { p with allergens := p.allergens ++ ["shellfish"] } else p
  p

/-- `IngredientProperties()`: dataclass constructor with all defaults,
followed by `__post_init__`. -/
def mkDefaultProps : IngredientProperties := postInit {}

def meat_keywords : List String :=
  ["beef", "steak", "ground beef", "chuck", "sirloin", "ribeye", "brisket",
   "pork", "bacon", "ham", "sausage", "pepperoni", "prosciutto", "chorizo",
   "lamb", "mutton", "veal", "venison", "duck", "goose", "turkey", "chicken",
   "meat", "meatball", "meatloaf", "salami", "bologna", "pastrami",
   "andouille", "bratwurst", "kielbasa", "frankfurter", "hot dog",
   "pancetta", "guanciale", "lard", "tallow", "suet"]

def poultry_keywords : List String :=
  ["chicken", "turkey", "duck", "goose", "quail", "pheasant", "cornish hen",
   "chicken breast", "chicken thigh", "chicken wing", "turkey breast",
   "ground turkey", "ground chicken", "chicken stock", "turkey stock",
   "poultry", "fowl"]

def fish_keywords : List String :=
  ["salmon", "tuna", "cod", "halibut", "tilapia", "bass", "trout", "catfish",
   "mackerel", "sardine", "anchovies", "herring", "sole", "flounder",
   "mahi mahi", "snapper", "grouper", "swordfish", "monkfish", "haddock",
   "fish", "fish sauce", "fish stock", "fish fillet", "smoked fish"]

def seafood_keywords : List String :=
  ["shrimp", "lobster", "crab", "scallops", "oysters", "mussels", "clams",
   "squid", "octopus", "calamari", "prawns", "crayfish", "langostino",
   "sea urchin", "abalone", "conch", "whelk", "cockles", "barnacles",
   "seafood", "shellfish", "crustacean", "mollusk"]

def dairy_keywords : List String :=
  ["milk", "cream", "butter", "cheese", "yogurt", "sour cream", "creme fraiche",
   "heavy cream", "whipping cream", "half and half", "buttermilk",
   "cottage cheese", "ricotta", "mozzarella", "cheddar", "swiss", "brie",
   "camembert", "gouda", "parmesan", "romano", "feta", "goat cheese",
   "cream cheese", "mascarpone", "whey", "casein", "lactose",
   "ice cream", "sherbet", "frozen yogurt", "condensed milk", "evaporated milk",
   "dairy", "milk powder", "dry milk", "ghee"]

def egg_keywords : List String :=
  ["egg", "eggs", "egg white", "egg yolk", "whole egg", "beaten egg",
   "scrambled egg", "hard boiled egg", "mayonnaise", "aioli", "hollandaise",
   "egg wash", "egg substitute", "quail egg", "duck egg"]

def gluten_keywords : List String :=
  ["wheat", "flour", "all-purpose flour", "bread flour", "cake flour",
   "whole wheat flour", "wheat germ", "wheat bran", "semolina",
   "barley", "rye", "spelt", "kamut", "bulgur", "couscous", "farro",
   "bread", "pasta", "noodles", "spaghetti", "macaroni", "linguine",
   "penne", "rigatoni", "fettuccine", "lasagna", "ravioli", "gnocchi",
   "breadcrumbs", "panko", "croutons", "crackers", "pretzels",
   "beer", "ale", "lager", "stout", "wheat beer", "malt", "brewer's yeast",
   "soy sauce", "teriyaki sauce", "worcestershire sauce", "seitan",
   "vital wheat gluten", "gluten"]

def nut_keywords : List String :=
  ["almonds", "walnuts", "pecans", "hazelnuts", "cashews", "pistachios",
   "macadamia", "brazil nuts", "pine nuts", "chestnuts", "peanuts",
   "peanut butter", "almond butter", "cashew butter", "tahini",
   "sesame seeds", "sunflower seeds", "pumpkin seeds", "flax seeds",
   "chia seeds", "hemp seeds", "poppy seeds", "sesame oil",
   "nut", "nuts", "tree nuts", "seed", "seeds"]

def soy_keywords : List String :=
  ["soy", "soya", "soybeans", "soy sauce", "tofu", "tempeh", "miso",
   "soy milk", "soy flour", "soy protein", "edamame", "soybean oil",
   "lecithin", "soy lecithin", "tamari", "shoyu", "natto"]

def pork_keywords : List String :=
  ["pork", "bacon", "ham", "sausage", "pepperoni", "prosciutto", "chorizo",
   "pancetta", "guanciale", "lard", "pork chop", "pork shoulder", "pork belly",
   "pork tenderloin", "ground pork", "pork ribs", "pork butt"]

def shellfish_keywords : List String :=
  ["shrimp", "lobster", "crab", "scallops", "oysters", "mussels", "clams",
   "squid", "octopus", "calamari", "prawns", "crayfish", "langostino"]

/-- `any(keyword in ingredient_lower for keyword in kws)`. -/
def anyKeyword (kws : List String) (il : String) : Bool :=
  kws.any fun k => pyIn k il

/-- `IngredientClassifier.classify_ingredient`.  Note that the properties
object is constructed (running `__post_init__`) before any flag is set;
the subsequent statements are plain attribute mutations. -/
def classify_ingredient (ingredient : String) : IngredientProperties :=
  let ingredient_lower := pyStrip (pyLower ingredient)
  let props := mkDefaultProps
  let props := if anyKeyword meat_keywords ingredient_lower then
    { props with is_meat := true } else props
  let props := if anyKeyword poultry_keywords ingredient_lower then
    { props with is_poultry := true, is_meat := true } else props
  let props := if anyKeyword fish_keywords ingredient_lower then
    { props with is_fish := true } else props
  let props := if anyKeyword seafood_keywords ingredient_lower then
    { props with is_seafood := true } else props
  let props := if anyKeyword dairy_keywords ingredient_lower then
    { props with is_dairy := true } else props
  let props := if anyKeyword egg_keywords ingredient_lower then
    { props with is_egg := true } else props
  let props := if anyKeyword gluten_keywords ingredient_lower then
    { props with is_gluten_containing := true } else props
  let props := if anyKeyword nut_keywords ingredient_lower then
    { props with is_nut := true } else props
  let props := if anyKeyword soy_keywords ingredient_lower then
    { props with is_soy := true } else props
  let props := if anyKeyword pork_keywords ingredient_lower then
    { props with is_kosher := false, is_halal := false } else props
  let props := if anyKeyword shellfish_keywords ingredient_lower then
    { props with is_kosher := false } else props
  props

/-! ## Ordered backtracking matchers

`src/ingredient_parser.py`, `src/ingredient_parser_new_ds.py` and
`src/utils/ingredient_embedder.py` compile the regex

  `^\s*(?P<amount>\d+\s\d+/\d+|\d+/\d+|\d+\.\d+|\d+)?\s*(?P<unit>[a-zA-Z]+)?\s+(?P<ingredient>.+)$`

and match with `PATTERN.match`.  The regex is modeled by a matcher that
enumerates candidate `(consumed, rest)` splits in the Python engine's
preference order (greedy quantifiers, alternatives left to right, earlier
sub-patterns backtracked last), so that the head of the final candidate
list is exactly the match Python finds. -/

/-- A matcher: all candidate `(consumed, rest)` splits in preference order. -/
abbrev Matcher := List Char → List (List Char × List Char)

/-- Single character of a class. -/
def mOne (p : Char → Bool) : Matcher := fun cs =>
  match cs with
  | [] => []
  | c :: rest => if p c then [([c], rest)] else []

/-- Concatenation; earlier matcher choices are backtracked last. -/
def mSeq (a b : Matcher) : Matcher := fun cs =>
  (a cs).flatMap fun pr => (b pr.2).map fun qr => (pr.1 ++ qr.1, qr.2)

/-- Ordered alternation `a|b`. -/
def mAlt (a b : Matcher) : Matcher := fun cs => a cs ++ b cs

/-- The empty match. -/
def mEps : Matcher := fun cs => [([], cs)]

/-- Greedy `?`: try the sub-match first, then the empty match. -/
def mOpt (a : Matcher) : Matcher := mAlt a mEps

/-- Greedy `p*` over a character class: longest run first. -/
def mStar (p : Char → Bool) : Matcher := fun cs =>
  let n := (cs.takeWhile p).length
  (List.range (n + 1)).map fun i => (cs.take (n - i), cs.drop (n - i))

/-- Greedy `p+` over a character class: longest run first, at least one. -/
def mPlus (p : Char → Bool) : Matcher := fun cs =>
  let n := (cs.takeWhile p).length
  (List.range n).map fun i => (cs.take (n - i), cs.drop (n - i))

/-- A literal character sequence. -/
def mLit (l : List Char) : Matcher := fun cs =>
  if l.isPrefixOf cs then [(l, cs.drop l.length)] else []

/-- Regex `.`: any character except a newline. -/
def isPyDot (c : Char) : Bool := c != '\n'

/-- Regex `$`: end of the string, or just before a final newline. -/
def pyDollar (cs : List Char) : Bool := cs.isEmpty || cs == ['\n']

/-- The `amount` group: `\d+\s\d+/\d+|\d+/\d+|\d+\.\d+|\d+`. -/
def mAmount : Matcher :=
  mAlt (mSeq (mPlus isPyDigit)
        (mSeq (mOne isPySpace) (mSeq (mPlus isPyDigit) (mSeq (mLit ['/']) (mPlus isPyDigit)))))
  (mAlt (mSeq (mPlus isPyDigit) (mSeq (mLit ['/']) (mPlus isPyDigit)))
  (mAlt (mSeq (mPlus isPyDigit) (mSeq (mLit ['.']) (mPlus isPyDigit)))
        (mPlus isPyDigit)))

/-- `PATTERN.match` on an already-stripped string: the first full-pattern
success in backtracking order, returning the three captures
`(amount, unit, ingredient)`. -/
def patternMatch (cs : List Char) : Option (List Char × List Char × List Char) :=
  ((mStar isPySpace cs).flatMap fun w0 =>
    (mOpt mAmount w0.2).flatMap fun am =>
    (mStar isPySpace am.2).flatMap fun w1 =>
    (mOpt (mPlus isPyAlpha) w1.2).flatMap fun un =>
    (mPlus isPySpace un.2).flatMap fun w2 =>
    (mPlus isPyDot w2.2).flatMap fun ing =>
    if pyDollar ing.2 then [(am.1, un.1, ing.1)] else []).head?

/-- `parse_ingredient` of `src/ingredient_parser_new_ds.py` (identical to
the one in `src/ingredient_embedder_new.py`): a missing group is `""`
(`match.group(..) or ""`), and the fallback is `("", "", input.strip())`. -/
def parse_ingredient_nds (s : String) : String × String × String :=
  match patternMatch (pyStrip s).data with
  | some (a, u, ing) => (⟨a⟩, ⟨u⟩, pyStrip ⟨ing⟩)
  | none => ("", "", pyStrip s)

/-- The dynamically typed return value of `parse_ingredient` in
`src/ingredient_parser.py`: a bare string or a 3-tuple. -/
inductive PyParseReturn where
  | str (s : String)
  | tuple (amount unit name : String)
  deriving Repr, DecidableEq

/-- `parse_ingredient` of `src/ingredient_parser.py` (identical to the one
in `src/utils/ingredient_embedder.py`, lines 40-41 there): on a successful
match it executes `return ingredient` (the tuple return on the previous
line is commented out), so it returns a bare string; only the fallback
branch returns a 3-tuple. -/
def parse_ingredient_ip (s : String) : PyParseReturn :=
  match patternMatch (pyStrip s).data with
  | some (_, _, ing) => .str (pyStrip ⟨ing⟩)
  | none => .tuple "" "" (pyStrip s)

/-- Soundness of a matcher: every candidate split reassembles its input. -/
def MSound (m : Matcher) : Prop :=
  ∀ cs c r, (c, r) ∈ m cs → c ++ r = cs

/-! ## `split_ingredients`

All three parser/embedder modules define

  `marked = re.sub(r'(?<=,)\s*(?=\d+[\d\s\/\.]*)', '|', text.strip())`
  `parts = [part.strip(" ,") for part in marked.split('|') if part.strip()]`

The substitution pattern consumes only the whitespace run after a comma
(both lookarounds are zero-width); it matches at a position exactly when
the previous character is a comma and the first character after the
whitespace run is a digit.  Two such matches can never be adjacent, so the
scan below, which carries one character of left context, is the exact
`re.sub` behaviour (including the empty-match case where the comma is
immediately followed by a digit). -/

/-- After skipping the whitespace run, is the next character a digit?
(The lookahead `(?=\d+[\d\s\/\.]*)` needs just one digit.) -/
def digitAfterSpaces (cs : List Char) : Bool :=
  match cs.dropWhile isPySpace with
  | d :: _ => isPyDigit d
  | [] => false

/-- The marker-insertion pass of the `re.sub` above, as a one-character
scan.  `skipping` is true while inside a whitespace run that the pattern
matched (the run was replaced by the already-emitted `|` and ends at a
digit); `prevComma` says whether the character just before the current
position is `,`. -/
def markSplitsAux (skipping prevComma : Bool) : List Char → List Char
  | [] => []
  | c :: rest =>
    if skipping then
      if isPySpace c then markSplitsAux true false rest
      else c :: markSplitsAux false (c == ',') rest
    else if prevComma && digitAfterSpaces (c :: rest) then
      if isPySpace c then
        -- non-empty match: the whitespace run is replaced by the marker
        '|' :: markSplitsAux true false rest
      else
        -- empty match just before a digit: the marker is inserted
        '|' :: c :: markSplitsAux false (c == ',') rest
    else c :: markSplitsAux false (c == ',') rest

/-- `re.sub(r'(?<=,)\s*(?=\d+[\d\s\/\.]*)', '|', ·)`. -/
def markSplits (cs : List Char) : List Char := markSplitsAux false false cs

/-- Does the substitution pattern match anywhere?  (Mirrors `markSplits`.) -/
def hasMark (prevComma : Bool) (cs : List Char) : Bool :=
  match cs with
  | [] => false
  | c :: rest => (prevComma && digitAfterSpaces (c :: rest)) || hasMark (c == ',') rest

/-- Python `marked.split('|')`. -/
def splitChar (sep : Char) : List Char → List (List Char)
  | [] => [[]]
  | c :: rest =>
    match splitChar sep rest with
    | [] => if c == sep then [[], []] else [[c]]
    | h :: t => if c == sep then [] :: h :: t else (c :: h) :: t

/-- `split_ingredients` of `src/ingredient_parser.py`,
`src/ingredient_parser_new_ds.py`, `src/ingredient_embedder_new.py` and
`src/utils/ingredient_embedder.py`. -/
def split_ingredients (text : String) : List String :=
  ((splitChar '|' (markSplits (pyStrip text).data)).filter fun part =>
      !(stripList isPySpace part).isEmpty).map fun part =>
    pyStripChars [' ', ','] ⟨part⟩

/-! ## The external embedding backend

`SentenceTransformer` and the sklearn vector helpers are external
collaborators (the spec treats embedding-model failures as fatal at
construction time, with no per-call error path), so they enter the
embedding as an explicit record of opaque operations producing rational
similarity scores. -/

structure EmbModel (V : Type) where
  /-- `model.encode(text, convert_to_numpy=True)`. -/
  encode : String → V
  /-- `model.encode(text, ..., normalize_embeddings=True)`. -/
  encodeNorm : String → V
  /-- `sklearn.preprocessing.normalize([v])[0]`. -/
  l2normalize : V → V
  /-- `sklearn.metrics.pairwise.cosine_similarity` of two vectors. -/
  cos : V → V → ℚ

/-- Python dict update `d[k] = v` (insertion order preserved). -/
def dictSet (d : List (String × String)) (k v : String) : List (String × String) :=
  if d.any fun p => p.1 == k then
    d.map fun p => if p.1 == k then (k, v) else p
  else d ++ [(k, v)]

/-- Python `d.get(k, dflt)`. -/
def dictGetD (d : List (String × String)) (k dflt : String) : String :=
  match d.find? fun p => p.1 == k with
  | some p => p.2
  | none => dflt

/-- `np.argmax` bookkeeping: remaining list, best index, best value, next
index; the best value is replaced only on strict improvement, so the FIRST
maximal element wins, as in numpy. -/
def argmaxAux : List ℚ → Nat → ℚ → Nat → Nat
  | [], bi, _, _ => bi
  | x :: xs, bi, bv, i =>
      if bv < x then argmaxAux xs i x (i + 1) else argmaxAux xs bi bv (i + 1)

/-- `int(np.argmax(l))`: index of the first maximal element (0 if empty). -/
def listArgmax : List ℚ → Nat
  | [] => 0
  | x :: xs => argmaxAux xs 0 x 1

/-- The running maximum computed alongside `argmaxAux`. -/
def argmaxVal : List ℚ → ℚ → ℚ
  | [], bv => bv
  | x :: xs, bv => if bv < x then argmaxVal xs x else argmaxVal xs bv

/-! ## `src/ingredient_embedder_new.py`: the incremental normalizer -/

structure NormalizerState (V : Type) where
  canonical : List (String × String)
  embeddings : List V
  names : List String
  threshold : ℚ

/-- `IngredientNormalizer.__init__(threshold)`. -/
def initNormalizer (V : Type) (threshold : ℚ) : NormalizerState V :=
  { canonical := [], embeddings := [], names := [], threshold := threshold }

/-- `get_embedding` (which lower-cases and strips its argument once more)
followed by `normalize([vector])[0]`. -/
def normVector {V : Type} (M : EmbModel V) (ing : String) : V :=
  M.l2normalize (M.encode (pyStrip (pyLower ing)))

/-- `cosine_similarity([vector], self.embeddings)[0]`. -/
def normSims {V : Type} (M : EmbModel V) (st : NormalizerState V) (x : String) :
    List ℚ :=
  st.embeddings.map fun e => M.cos (normVector M (pyStrip (pyLower x))) e

/-- `best_score = sims[best_idx]`. -/
def normBestScore {V : Type} (M : EmbModel V) (st : NormalizerState V)
    (x : String) : ℚ :=
  (normSims M st x).getD (listArgmax (normSims M st x)) 0

/-- `IngredientNormalizer.normalize` of `src/ingredient_embedder_new.py`.
There is no cache check: the method always recomputes the similarities.
When the best score exceeds the threshold it only records
`canonical[ingredient] = canon`; `self.names` and `self.embeddings` are
not touched, so the stored cluster representative is never updated. -/
def normalizeN {V : Type} (M : EmbModel V) (st : NormalizerState V) (x : String) :
    String × NormalizerState V :=
  let ing := pyStrip (pyLower x)
  let vector := normVector M ing
  if st.embeddings.isEmpty then
    (ing, { st with embeddings := st.embeddings ++ [vector],
                    names := st.names ++ [ing],
                    canonical := dictSet st.canonical ing ing })
  else
    let best_idx := listArgmax (normSims M st x)
    let best_score := normBestScore M st x
    if st.threshold < best_score then
      let previous := st.names.getD best_idx ""
      let canon := if previous.length ≤ ing.length then previous else ing
      (canon, { st with canonical := dictSet st.canonical ing canon })
    else
      let canon := ing
      (canon, { st with embeddings := st.embeddings ++ [vector],
                        names := st.names ++ [canon],
                        canonical := dictSet st.canonical ing canon })

/-- States reachable from a freshly constructed incremental normalizer by
`normalize` calls. -/
inductive ReachableN {V : Type} (M : EmbModel V) : NormalizerState V → Prop where
  | init (t : ℚ) : ReachableN M (initNormalizer V t)
  | step {st : NormalizerState V} (x : String) :
      ReachableN M st → ReachableN M (normalizeN M st x).2

/-! ## `src/utils/ingredient_embedder.py`: the staged normalizer -/

structure StagedState (V : Type) where
  to_embed : List String
  threshold : ℚ
  embeddings : List V
  names : List String
  canonical : List (String × String)

/-- `IngredientNormalizer.normalize` of the staged variant: a pure
dictionary lookup (`return self.canonical.get(ing, ing)`); the body reads
`self.canonical` and assigns nothing, so the state is returned unchanged. -/
def normalizeStaged {V : Type} (st : StagedState V) (x : String) :
    String × StagedState V :=
  let ing := pyStrip (pyLower x)
  (dictGetD st.canonical ing ing, st)

/-! ## `src/utils/meal_type_embedder.py` -/

structure MealTypeState (V : Type) where
  meal_types : List String
  threshold : ℚ
  embeddings : List V

/-- `MealTypeEmbedder.__init__` — note the label list spells `"Desert"`. -/
def mkMealTypeEmbedder {V : Type} (M : EmbModel V) (threshold : ℚ) :
    MealTypeState V :=
  let meal_types := ["Breakfast", "Lunch", "Dinner", "Desert", "Drink"]
  { meal_types := meal_types, threshold := threshold,
    embeddings := meal_types.map M.encodeNorm }

/-- The similarity row of one text in `classify_bulk`:
`cosine_similarity(normalize(model.encode([text.lower().strip()])), self.embeddings)`. -/
def mealSims {V : Type} (M : EmbModel V) (st : MealTypeState V) (text : String) :
    List ℚ :=
  st.embeddings.map fun e =>
    M.cos (M.l2normalize (M.encode (pyStrip (pyLower text)))) e

/-- `best_score = sim[best_idx]` for one text. -/
def mealBestScore {V : Type} (M : EmbModel V) (st : MealTypeState V)
    (text : String) : ℚ :=
  (mealSims M st text).getD (listArgmax (mealSims M st text)) 0

/-- `MealTypeEmbedder.classify_bulk`. -/
def classify_bulk {V : Type} (M : EmbModel V) (st : MealTypeState V)
    (texts : List String) : List String :=
  texts.map fun text =>
    if st.threshold ≤ mealBestScore M st text then
      st.meal_types.getD (listArgmax (mealSims M st text)) ""
    else "Other"

/-- `MealTypeEmbedder.classify`: `self.classify_bulk([text])[0]`. -/
def classify {V : Type} (M : EmbModel V) (st : MealTypeState V) (text : String) :
    String :=
  (classify_bulk M st [text]).getD 0 ""

/-! ## `src/src/graph_db/loaders/recipes.py`: the batch loop -/

/-- The per-row record construction inside a batch (`try ... except` per
row: rows whose record body raises are logged and skipped); the row passed
to it and the body are pandas collaborators, abstracted as `Except`. -/
def extractRecords {Row Rec : Type} (toRecord : Row → Except String Rec)
    (batch : List Row) : List Rec :=
  batch.filterMap fun r => (toRecord r).toOption

/-- One iteration of the batch loop of `RecipeLoader.load_data`: the
`try/except` around `session.run`/`consume` (the `run` collaborator);
on success `total_processed += len(records)`, on exception the message
`f"Error in batch {batch_idx}: {e}"` is appended and the loop goes on. -/
def processBatch {Rec : Type} (run : List Rec → Except String Unit)
    (st : Nat × List String) (idx : Nat) (records : List Rec) :
    Nat × List String :=
  if records.isEmpty then st
  else match run records with
    | .ok _ => (st.1 + records.length, st.2)
    | .error e =>
        (st.1, st.2 ++ ["Error in batch " ++ toString idx ++ ": " ++ e])

def loadBatchesAux {Row Rec : Type} (toRecord : Row → Except String Rec)
    (run : List Rec → Except String Unit) :
    Nat → List (List Row) → Nat × List String → Nat × List String
  | _, [], st => st
  | idx, b :: bs, st =>
      loadBatchesAux toRecord run (idx + 1) bs
        (processBatch run st idx (extractRecords toRecord b))

structure LoadSummary where
  status : String
  total_processed : Nat
  errors : List String
  deriving Repr, DecidableEq

/-- The batch loop and result assembly of `RecipeLoader.load_data`:
`status` is `"success"`/`"partial_success"`/`"error"`, and the returned
error list is `errors[:10]`. -/
def recipeLoadData {Row Rec : Type} (toRecord : Row → Except String Rec)
    (run : List Rec → Except String Unit) (batches : List (List Row)) :
    LoadSummary :=
  let r := loadBatchesAux toRecord run 0 batches (0, [])
  { status := if r.2.isEmpty then "success"
              else if 0 < r.1 then "partial_success" else "error",
    total_processed := r.1,
    errors := r.2.take 10 }

/-- Specification side: what one batch contributes to `total_processed`,
independently of every other batch. -/
def batchContribution {Row Rec : Type} (toRecord : Row → Except String Rec)
    (run : List Rec → Except String Unit) (b : List Row) : Nat :=
  let recs := extractRecords toRecord b
  if recs.isEmpty then 0
  else match run recs with | .ok _ => recs.length | .error _ => 0

/-- Specification side: the error message one batch contributes,
independently of every other batch. -/
def batchError {Row Rec : Type} (toRecord : Row → Except String Rec)
    (run : List Rec → Except String Unit) (idx : Nat) (b : List Row) :
    Option String :=
  let recs := extractRecords toRecord b
  if recs.isEmpty then none
  else match run recs with
    | .ok _ => none
    | .error e => some ("Error in batch " ++ toString idx ++ ": " ++ e)

/-! ## Concrete embedding backends used to instantiate the theorems -/

/-- A degenerate backend on which every similarity is 1. -/
def unitModel : EmbModel Unit :=
  { encode := fun _ => (), encodeNorm := fun _ => (),
    l2normalize := fun v => v, cos := fun _ _ => 1 }

/-- A degenerate backend on which every similarity is 0. -/
def zeroModel : EmbModel Unit :=
  { encode := fun _ => (), encodeNorm := fun _ => (),
    l2normalize := fun v => v, cos := fun _ _ => 0 }

/-- A backend over `String` vectors whose similarity singles out the
stored label `"Desert"`. -/
def desertModel : EmbModel String :=
  { encode := fun s => s, encodeNorm := fun s => s,
    l2normalize := fun v => v,
    cos := fun _ w => if w = "Desert" then 1 else 0 }

/-! ## `src/src/graph_db/loaders/price.py`

`extract_core_ingredient` applies five compiled patterns with `re.sub`.
Because they contain `\b`, the matchers here carry the reversed left
context as well: the input is (reversed left context, rest) and each
candidate is (consumed, reversed left context after the match, rest after
the match), in the engine's preference order, exactly as for `Matcher`. -/

abbrev BMatcher :=
  List Char → List Char → List (List Char × List Char × List Char)

/-- Single character of a class. -/
def bChar (p : Char → Bool) : BMatcher := fun l r =>
  match r with
  | [] => []
  | c :: rest => if p c then [([c], c :: l, rest)] else []

/-- Concatenation. -/
def bSeq (a b : BMatcher) : BMatcher := fun l r =>
  (a l r).flatMap fun x => (b x.2.1 x.2.2).map fun y => (x.1 ++ y.1, y.2)

/-- Ordered alternation. -/
def bAlt (a b : BMatcher) : BMatcher := fun l r => a l r ++ b l r

/-- The empty match. -/
def bEps : BMatcher := fun l r => [([], l, r)]

/-- The failing matcher (empty alternation). -/
def bFail : BMatcher := fun _ _ => []

/-- Greedy `?`. -/
def bOpt (a : BMatcher) : BMatcher := bAlt a bEps

/-- A literal character sequence. -/
def bLit (w : List Char) : BMatcher := fun l r =>
  if w.isPrefixOf r then [(w, w.reverse ++ l, r.drop w.length)] else []

/-- Greedy `p*` over a character class: longest run first. -/
def bStar (p : Char → Bool) : BMatcher := fun l r =>
  let n := (r.takeWhile p).length
  (List.range (n + 1)).map fun i =>
    (r.take (n - i), (r.take (n - i)).reverse ++ l, r.drop (n - i))

/-- Greedy `p+` over a character class. -/
def bPlus (p : Char → Bool) : BMatcher := fun l r =>
  let n := (r.takeWhile p).length
  (List.range n).map fun i =>
    (r.take (n - i), (r.take (n - i)).reverse ++ l, r.drop (n - i))

def isWordOpt : Option Char → Bool
  | some c => isPyWord c
  | none => false

/-- Regex `\b`: a word character on exactly one side of the position. -/
def bBoundary : BMatcher := fun l r =>
  if isWordOpt l.head? != isWordOpt r.head? then [([], l, r)] else []

/-- Ordered alternation over literal words. -/
def bWords (ws : List (List Char)) : BMatcher :=
  ws.foldr (fun w acc => bAlt (bLit w) acc) bFail

/-- `re.sub(pattern, repl, ·)`: leftmost scan taking the engine's
preferred (first) candidate at each position, non-overlapping, always
matching against the original text.  None of the price-loader patterns can
match the empty string; an empty match defensively copies one character,
as Python does.  The fuel is one more than the remaining length, enough
because every step consumes at least one input character. -/
def bSubAux (m : BMatcher) (repl : List Char) :
    Nat → List Char → List Char → List Char
  | 0, _, r => r
  | _ + 1, _, [] => []
  | fuel + 1, l, c :: rest =>
    match (m l (c :: rest)).head? with
    | some (consumed, l2, r2) =>
      if consumed.isEmpty then c :: bSubAux m repl fuel (c :: l) rest
      else repl ++ bSubAux m repl fuel l2 r2
    | none => c :: bSubAux m repl fuel (c :: l) rest

def bSubAll (m : BMatcher) (repl : List Char) (cs : List Char) : List Char :=
  bSubAux m repl (cs.length + 1) [] cs

/-- `re.sub` of a `^`-anchored pattern replacing with `""`: at most one
match, at the very start of the string. -/
def bSubStart (m : BMatcher) (cs : List Char) : List Char :=
  match (m [] cs).head? with
  | some (consumed, _, r2) => if consumed.isEmpty then cs else r2
  | none => cs

/-- The class `[\d\s/.,()\-]`. -/
def isQtyClass (c : Char) : Bool :=
  isPyDigit c || isPySpace c || c == '/' || c == '.' || c == ',' ||
    c == '(' || c == ')' || c == '-'

/-- `(?:cups?|tablespoons?|tbsp|teaspoons?|tsp|pounds?|lbs?|ounces?|oz|grams?|g|ml|liters?|l|inch|inches)`
in source order; `Xs?` is a literal with a greedy optional `s`. -/
def bUnitAlt : BMatcher :=
  bAlt (bSeq (bLit "cup".data) (bOpt (bLit "s".data)))
  (bAlt (bSeq (bLit "tablespoon".data) (bOpt (bLit "s".data)))
  (bAlt (bLit "tbsp".data)
  (bAlt (bSeq (bLit "teaspoon".data) (bOpt (bLit "s".data)))
  (bAlt (bLit "tsp".data)
  (bAlt (bSeq (bLit "pound".data) (bOpt (bLit "s".data)))
  (bAlt (bSeq (bLit "lb".data) (bOpt (bLit "s".data)))
  (bAlt (bSeq (bLit "ounce".data) (bOpt (bLit "s".data)))
  (bAlt (bLit "oz".data)
  (bAlt (bSeq (bLit "gram".data) (bOpt (bLit "s".data)))
  (bAlt (bLit "g".data)
  (bAlt (bLit "ml".data)
  (bAlt (bSeq (bLit "liter".data) (bOpt (bLit "s".data)))
  (bAlt (bLit "l".data)
  (bAlt (bLit "inch".data)
        (bLit "inches".data)))))))))))))))

/-- `quantity_unit_pattern`: `^[\d\s/.,()\-]+(?:...units...)?\b`. -/
def quantityUnitMatcher : BMatcher :=
  bSeq (bPlus isQtyClass) (bSeq (bOpt bUnitAlt) bBoundary)

/-- The `descriptor_pattern` word list, in source order. -/
def descriptorWords : List String :=
  ["chopped", "minced", "sliced", "diced", "crushed", "hulled", "peeled",
   "ground", "shredded", "mashed", "fresh", "frozen", "cooked", "raw",
   "boiled", "grated", "coarsely", "finely", "optional", "packed",
   "stemmed", "trimmed", "beaten", "halved", "pitted", "cut", "into",
   "removed", "loosely", "torn", "quartered", "ribs", "leaves", "stems",
   "wedges", "slices", "strips", "whole", "large", "small", "medium",
   "dry", "dried", "sweetened", "unsalted", "low-salt", "no-salt-added",
   "store-bought", "preferably", "coarsely chopped"]

/-- `descriptor_pattern`: `\b(chopped|minced|...)\b`. -/
def descriptorMatcher : BMatcher :=
  bSeq bBoundary (bSeq (bWords (descriptorWords.map String.data)) bBoundary)

/-- `number_pattern`: `\b\d+([\/.-]\d+)?\b|\b\d+\w*\b`. -/
def numberMatcher : BMatcher :=
  bAlt
    (bSeq bBoundary (bSeq (bPlus isPyDigit)
      (bSeq (bOpt (bSeq (bChar fun c => c == '/' || c == '.' || c == '-')
        (bPlus isPyDigit))) bBoundary)))
    (bSeq bBoundary (bSeq (bPlus isPyDigit) (bSeq (bStar isPyWord) bBoundary)))

/-- `punct_pattern`: `[^\w\s]`. -/
def punctMatcher : BMatcher := bChar fun c => !(isPyWord c || isPySpace c)

/-- `space_pattern`: `\s+`. -/
def spaceMatcher : BMatcher := bPlus isPySpace

/-- Python `text.split()`: split on whitespace runs, dropping empties
(fuel-based structural recursion; the fuel is always sufficient). -/
def pySplitAux : Nat → List Char → List String
  | 0, _ => []
  | fuel + 1, cs =>
    match cs.dropWhile isPySpace with
    | [] => []
    | c :: rest =>
      let w := (c :: rest).takeWhile fun ch => !isPySpace ch
      ⟨w⟩ :: pySplitAux fuel ((c :: rest).drop w.length)

def pySplitWs (cs : List Char) : List String := pySplitAux (cs.length + 1) cs

/-- `PriceLoader.extract_core_ingredient`. -/
def extract_core_ingredient (text : String) : Option String :=
  let t0 := (pyStrip (pyLower text)).data
  let t1 := bSubStart quantityUnitMatcher t0
  let t2 := bSubAll descriptorMatcher [] t1
  let t3 := bSubAll numberMatcher [] t2
  let t4 := bSubAll punctMatcher [] t3
  let t5 := bSubAll spaceMatcher [' '] t4
  let tokens := pySplitWs (stripList isPySpace t5)
  if 2 ≤ tokens.length then
    some (String.intercalate " " (tokens.drop (tokens.length - 2)))
  else match tokens with
    | [w] => some w
    | _ => none

/-- One position of the step-3 match of `PriceLoader.load_data`:
`\b<name>\b` at the current position. -/
def wordMatchAt (needle l r : List Char) : Bool :=
  (isWordOpt l.head? != isWordOpt r.head?) &&
  needle.isPrefixOf r &&
  (isWordOpt needle.reverse.head? != isWordOpt (r.drop needle.length).head?)

def wordBoundedOccurs (needle : List Char) : List Char → List Char → Bool
  | _, [] => false
  | l, c :: rest =>
    wordMatchAt needle l (c :: rest) || wordBoundedOccurs needle (c :: l) rest

/-- Step 3 of `PriceLoader.load_data`:
`df["product_name"].str.extract(r"\b(it<name>)\b")` succeeds on a product
name iff the `re.escape`d processed ingredient name occurs as a
word-bounded substring of it (the names here contain no regex
metacharacters, so the escaped literal is the name itself). -/
def matchIngredientWord (needle hay : String) : Bool :=
  wordBoundedOccurs needle.data [] hay.data

end Food

/-! ## Claim C1 and C6 -/

/-- C1: the claim states that for every ingredient name the flags returned by
`classify_ingredient` satisfy the derived invariants (any of meat, poultry,
fish, seafood implies not vegetarian, etc.).  The code violates this:
`__post_init__` runs when `IngredientProperties()` is constructed, before
`classify_ingredient` sets any category flag, so the derived flags keep their
defaults.  At the input `"beef"` the returned record has `is_meat = true`
yet `is_vegetarian = true` and `is_vegan = true`. -/
theorem classify_beef_breaks_derived_invariant :
    (Food.classify_ingredient "beef").is_meat = true ∧
    (Food.classify_ingredient "beef").is_vegetarian = true ∧
    (Food.classify_ingredient "beef").is_vegan = true := by
  refine ⟨?_, ?_, ?_⟩ <;> rfl

/-- C6: the claim states `classify_ingredient("whole milk")` yields
`is_dairy = true`, `is_vegan = false` and `"dairy" ∈ allergens`.  The code
sets `is_dairy = true` but, because `__post_init__` already ran on the
all-false defaults, `is_vegan` stays `true` and `allergens` stays empty. -/
theorem classify_whole_milk_keeps_default_derived_fields :
    (Food.classify_ingredient "whole milk").is_dairy = true ∧
    (Food.classify_ingredient "whole milk").is_vegan = true ∧
    (Food.classify_ingredient "whole milk").allergens = [] := by
  refine ⟨?_, ?_, ?_⟩ <;> rfl

/-! ## Claim C2 -/

namespace Food

theorem msound_mOne (p : Char → Bool) : MSound (mOne p) := by
  intro cs c r h
  cases cs with
  | nil => simp [mOne] at h
  | cons x xs =>
    simp only [mOne] at h
    split at h <;> simp_all

theorem msound_mSeq {a b : Matcher} (ha : MSound a) (hb : MSound b) :
    MSound (mSeq a b) := by
  intro cs c r h
  simp only [mSeq, List.mem_flatMap, List.mem_map] at h
  obtain ⟨pr, hpr, qr, hqr, heq⟩ := h
  have h1 := ha cs pr.1 pr.2 hpr
  have h2 := hb pr.2 qr.1 qr.2 hqr
  cases heq
  rw [List.append_assoc, h2, h1]

theorem msound_mAlt {a b : Matcher} (ha : MSound a) (hb : MSound b) :
    MSound (mAlt a b) := by
  intro cs c r h
  rcases List.mem_append.1 h with h' | h'
  · exact ha cs c r h'
  · exact hb cs c r h'

theorem msound_mEps : MSound mEps := by
  intro cs c r h
  simp only [mEps, List.mem_singleton, Prod.mk.injEq] at h
  simp [h.1, h.2]

theorem msound_mOpt {a : Matcher} (ha : MSound a) : MSound (mOpt a) :=
  msound_mAlt ha msound_mEps

theorem msound_mStar (p : Char → Bool) : MSound (mStar p) := by
  intro cs c r h
  simp only [mStar, List.mem_map, List.mem_range] at h
  obtain ⟨i, _, heq⟩ := h
  cases heq
  exact List.take_append_drop _ cs

theorem msound_mPlus (p : Char → Bool) : MSound (mPlus p) := by
  intro cs c r h
  simp only [mPlus, List.mem_map, List.mem_range] at h
  obtain ⟨i, _, heq⟩ := h
  cases heq
  exact List.take_append_drop _ cs

theorem mPlus_ne_nil (p : Char → Bool) {cs c r : List Char}
    (h : (c, r) ∈ mPlus p cs) : c ≠ [] := by
  simp only [mPlus, List.mem_map, List.mem_range] at h
  obtain ⟨i, hi, heq⟩ := h
  cases heq
  rw [Ne, List.take_eq_nil_iff]
  push_neg
  constructor
  · omega
  · intro hnil
    rw [hnil] at hi
    simp [List.takeWhile] at hi

theorem msound_mLit (l : List Char) : MSound (mLit l) := by
  intro cs c r h
  simp only [mLit] at h
  split at h
  · next hpre =>
    simp only [List.mem_singleton, Prod.mk.injEq] at h
    obtain ⟨h1, h2⟩ := h
    subst h1; subst h2
    obtain ⟨t, ht⟩ := List.isPrefixOf_iff_prefix.1 hpre
    rw [← ht, List.drop_left' ?_]
    rfl
  · simp at h

theorem msound_mAmount : MSound mAmount := by
  unfold mAmount
  refine msound_mAlt ?_ (msound_mAlt ?_ (msound_mAlt ?_ ?_))
  · exact msound_mSeq (msound_mPlus _) (msound_mSeq (msound_mOne _)
      (msound_mSeq (msound_mPlus _) (msound_mSeq (msound_mLit _) (msound_mPlus _))))
  · exact msound_mSeq (msound_mPlus _) (msound_mSeq (msound_mLit _) (msound_mPlus _))
  · exact msound_mSeq (msound_mPlus _) (msound_mSeq (msound_mLit _) (msound_mPlus _))
  · exact msound_mPlus _

/-- Any successful `PATTERN.match` splits the input into a prefix, the
non-empty ingredient capture, and a residue allowed by `$`. -/
theorem patternMatch_decomp {cs a u ing : List Char}
    (h : patternMatch cs = some (a, u, ing)) :
    ∃ pre rest, cs = pre ++ (ing ++ rest) ∧ ing ≠ [] ∧
      (rest = [] ∨ rest = ['\n']) := by
  unfold patternMatch at h
  have hmem := List.mem_of_mem_head? (Option.mem_def.mpr h)
  simp only [List.mem_flatMap] at hmem
  obtain ⟨w0, hw0, am, ham, w1, hw1, un, hun, w2, hw2, ig, hig, hfin⟩ := hmem
  have hd : pyDollar ig.2 = true := by
    by_contra hd
    simp [Bool.not_eq_true] at hd
    rw [hd] at hfin
    simp at hfin
  rw [hd] at hfin
  simp only [if_true, List.mem_singleton, Prod.mk.injEq] at hfin
  obtain ⟨-, -, hing⟩ := hfin
  subst hing
  have e0 := msound_mStar isPySpace cs w0.1 w0.2 hw0
  have e1 := msound_mOpt msound_mAmount w0.2 am.1 am.2 ham
  have e2 := msound_mStar isPySpace am.2 w1.1 w1.2 hw1
  have e3 := msound_mOpt (msound_mPlus isPyAlpha) w1.2 un.1 un.2 hun
  have e4 := msound_mPlus isPySpace un.2 w2.1 w2.2 hw2
  have e5 := msound_mPlus isPyDot w2.2 ig.1 ig.2 hig
  have hne := mPlus_ne_nil isPyDot hig
  refine ⟨w0.1 ++ am.1 ++ w1.1 ++ un.1 ++ w2.1, ig.2, ?_, hne, ?_⟩
  · rw [← e0, ← e1, ← e2, ← e3, ← e4, ← e5]
    simp [List.append_assoc]
  · unfold pyDollar at hd
    rcases Bool.or_eq_true_iff.1 hd with h' | h'
    · exact Or.inl (List.isEmpty_iff.1 h')
    · exact Or.inr (by simpa using h')

theorem head?_dropWhile_not (p : Char → Bool) :
    ∀ (l : List Char) (c : Char), (l.dropWhile p).head? = some c → p c = false := by
  intro l
  induction l with
  | nil => intro c h; simp [List.dropWhile] at h
  | cons x xs ih =>
    intro c h
    rw [List.dropWhile_cons] at h
    split at h
    · exact ih c h
    · next hx =>
      simp only [List.head?_cons, Option.some.injEq] at h
      subst h
      simpa using hx

/-- The stripped string never ends in a stripped character. -/
theorem stripList_getLast?_not (p : Char → Bool) (l : List Char) (c : Char)
    (h : (stripList p l).getLast? = some c) : p c = false := by
  unfold stripList at h
  rw [List.getLast?_reverse] at h
  exact head?_dropWhile_not p _ c h

theorem stripList_eq_nil_all (p : Char → Bool) (l : List Char)
    (h : stripList p l = []) : ∀ c ∈ l, p c = true := by
  unfold stripList at h
  rw [List.reverse_eq_nil_iff, List.dropWhile_eq_nil_iff] at h
  intro c hc
  have hc' : c ∈ l.takeWhile p ++ l.dropWhile p := by
    rw [List.takeWhile_append_dropWhile p l]; exact hc
  rcases List.mem_append.1 hc' with h1 | h2
  · exact List.mem_takeWhile_imp h1
  · exact h c (List.mem_reverse.2 h2)

theorem stripList_ne_nil (p : Char → Bool) (l : List Char) (c : Char)
    (hc : l.getLast? = some c) (hpc : p c = false) : stripList p l ≠ [] := by
  intro h
  have := stripList_eq_nil_all p l h c (List.mem_of_mem_getLast? (Option.mem_def.mpr hc))
  rw [hpc] at this
  exact Bool.false_ne_true this

end Food

/-- C2 (amended): the claim's totality and 3-tuple shape hold for the
`parse_ingredient` of `ingredient_parser_new_ds.py` /
`ingredient_embedder_new.py` (in `ingredient_parser.py` and
`utils/ingredient_embedder.py` the match branch returns a bare string
instead), and the name component is non-empty exactly when the trimmed
input is non-empty: for a whitespace-only or empty input the fallback name
`input.strip()` is empty. -/
theorem parse_ingredient_nds_name_empty_iff (s : String) :
    (Food.parse_ingredient_nds s).2.2 = "" ↔ Food.pyStrip s = "" := by
  constructor
  · intro h
    by_contra hne
    have hd : (Food.pyStrip s).data ≠ [] := fun hnil => hne (String.ext hnil)
    cases hpm : Food.patternMatch (Food.pyStrip s).data with
    | none =>
      rw [Food.parse_ingredient_nds, hpm] at h
      exact hne h
    | some v =>
      obtain ⟨a, u, ing⟩ := v
      rw [Food.parse_ingredient_nds, hpm] at h
      obtain ⟨pre, rest, hdecomp, hing, hrest⟩ := Food.patternMatch_decomp hpm
      have hlast : (Food.pyStrip s).data.getLast? = (ing ++ rest).getLast? := by
        rw [hdecomp]
        exact List.getLast?_append_of_ne_nil pre (by
          intro hn
          rcases List.append_eq_nil.1 hn with ⟨h1, _⟩
          exact hing h1)
      rcases hrest with hr | hr
      · -- `$` matched at the very end: the ingredient capture ends with the
        -- last character of the stripped input, which is not whitespace.
        subst hr
        rw [List.append_nil] at hlast
        obtain ⟨c, hc⟩ : ∃ c, ing.getLast? = some c := by
          cases hgl : ing.getLast? with
          | none => exact absurd (List.getLast?_eq_none_iff.1 hgl) hing
          | some c => exact ⟨c, rfl⟩
        have hcs : Food.isPySpace c = false :=
          Food.stripList_getLast?_not Food.isPySpace s.data c (by rw [← hlast] at hc; exact hc)
        have : Food.stripList Food.isPySpace ing ≠ [] :=
          Food.stripList_ne_nil Food.isPySpace ing c hc hcs
        exact this (congrArg String.data h)
      · -- `$` matched before a final newline: impossible, the stripped
        -- input cannot end in whitespace.
        subst hr
        have hln : (Food.pyStrip s).data.getLast? = some '\n' := by
          rw [hlast]
          rw [List.getLast?_append_of_ne_nil ing (by simp)]
          rfl
        have := Food.stripList_getLast?_not Food.isPySpace s.data '\n' hln
        simp [Food.isPySpace] at this
  · intro h
    have hdata : (Food.pyStrip s).data = [] := congrArg String.data h
    rw [Food.parse_ingredient_nds, hdata]
    have hnone : Food.patternMatch [] = none := rfl
    rw [hnone, h]

/-- C2: the claim as stated is false on the code.  In
`src/ingredient_parser.py` (and likewise `src/utils/ingredient_embedder.py`)
a successful match returns the bare ingredient string, not a 3-tuple
(e.g. at `"1 cup sugar"`), and for the empty string the returned name
component is empty, not non-empty. -/
theorem parse_ingredient_counterexample :
    Food.parse_ingredient_ip "1 cup sugar" = .str "sugar" ∧
    (Food.parse_ingredient_nds "").2.2 = "" := ⟨rfl, rfl⟩

/-! ## Claim C8 -/

namespace Food

/-- If the substitution pattern matches nowhere, `re.sub` is the identity. -/
theorem markSplitsAux_eq_self {b : Bool} {cs : List Char}
    (h : hasMark b cs = false) : markSplitsAux false b cs = cs := by
  induction cs generalizing b with
  | nil => rfl
  | cons c rest ih =>
    rw [hasMark] at h
    rw [Bool.or_eq_false_iff] at h
    obtain ⟨h1, h2⟩ := h
    rw [markSplitsAux]
    simp only [Bool.false_eq_true, if_false, h1]
    rw [ih h2]

theorem splitChar_of_not_mem {sep : Char} {cs : List Char} (h : sep ∉ cs) :
    splitChar sep cs = [cs] := by
  induction cs with
  | nil => rfl
  | cons c rest ih =>
    have h' : sep ≠ c ∧ sep ∉ rest := by simpa [List.mem_cons, not_or] using h
    have hc : (c == sep) = false :=
      beq_eq_false_iff_ne.2 fun he => (h'.1 he.symm).elim
    have hr := ih h'.2
    rw [splitChar, hr, hc]
    simp

end Food

/-- C8 (amended): for an input in which the splitting pattern never fires
(no comma followed by optional whitespace and a digit) and which contains
no literal `|`, `split_ingredients` returns a single phrase — but that
phrase is the trimmed input with surrounding spaces AND COMMAS further
stripped (`part.strip(" ,")`), not the trimmed input itself; and a
whitespace-only input yields the empty list, not a single phrase. -/
theorem split_ingredients_no_marker (s : String)
    (hm : Food.hasMark false (Food.pyStrip s).data = false)
    (hb : '|' ∉ (Food.pyStrip s).data) :
    Food.split_ingredients s =
      if Food.pyStrip s = "" then []
      else [Food.pyStripChars [' ', ','] (Food.pyStrip s)] := by
  unfold Food.split_ingredients Food.markSplits
  rw [Food.markSplitsAux_eq_self hm, Food.splitChar_of_not_mem hb]
  by_cases hempty : Food.pyStrip s = ""
  · rw [if_pos hempty]
    have hdata : (Food.pyStrip s).data = [] := congrArg String.data hempty
    simp [hdata, Food.stripList, List.filter]
  · rw [if_neg hempty]
    have hne : (Food.pyStrip s).data ≠ [] := fun h => hempty (String.ext h)
    obtain ⟨c, hc⟩ : ∃ c, (Food.pyStrip s).data.getLast? = some c := by
      cases hgl : (Food.pyStrip s).data.getLast? with
      | none => exact absurd (List.getLast?_eq_none_iff.1 hgl) hne
      | some c => exact ⟨c, rfl⟩
    have hcns : Food.isPySpace c = false :=
      Food.stripList_getLast?_not Food.isPySpace s.data c hc
    have hstrip : Food.stripList Food.isPySpace (Food.pyStrip s).data ≠ [] :=
      Food.stripList_ne_nil _ _ c hc hcns
    have hfil : (Food.stripList Food.isPySpace (Food.pyStrip s).data).isEmpty = false :=
      List.isEmpty_eq_false.2 hstrip
    simp [List.filter, hfil]

/-- C8: the claim as stated is false on the code: descriptive commas do not
fragment the phrase, but the returned phrase is the input with surrounding
spaces and commas stripped, which differs from the trimmed input when the
input ends in a comma — on the spec's own edge-case example
`"1 large garlic clove, crushed,"`. -/
theorem split_ingredients_counterexample :
    Food.split_ingredients "1 large garlic clove, crushed," =
      ["1 large garlic clove, crushed"] ∧
    Food.pyStrip "1 large garlic clove, crushed," =
      "1 large garlic clove, crushed," ∧
    ("1 large garlic clove, crushed" : String) ≠
      "1 large garlic clove, crushed," := by
  refine ⟨by decide, by decide, by decide⟩

/-- C8 witness: a single phrase with no quantity-led comma continuation and
no surrounding commas survives the split unchanged. -/
theorem split_ingredients_no_marker_witness :
    Food.split_ingredients "1 cup warm water" = ["1 cup warm water"] := by
  rw [split_ingredients_no_marker "1 cup warm water" (by decide) (by decide)]
  decide

/-! ## Claim C7: `np.argmax` facts and normalize/normalize idempotence -/

namespace Food

theorem argmaxAux_mem_bounds :
    ∀ (xs : List ℚ) (bi : Nat) (bv : ℚ) (i : Nat),
      argmaxAux xs bi bv i = bi ∨
        (i ≤ argmaxAux xs bi bv i ∧ argmaxAux xs bi bv i < i + xs.length) := by
  intro xs
  induction xs with
  | nil => intro bi bv i; exact Or.inl rfl
  | cons x xs ih =>
    intro bi bv i
    rw [argmaxAux]
    split
    · rcases ih i x (i + 1) with h | h
      · right; rw [h]; simp [Nat.lt_add_of_pos_right]
      · right; constructor
        · omega
        · simpa [Nat.add_assoc, Nat.add_comm 1 xs.length] using h.2
    · rcases ih bi bv (i + 1) with h | h
      · exact Or.inl h
      · right; constructor
        · omega
        · simp only [List.length_cons]
          omega

theorem listArgmax_lt_length {l : List ℚ} (h : l ≠ []) :
    listArgmax l < l.length := by
  cases l with
  | nil => exact absurd rfl h
  | cons x xs =>
    rw [listArgmax]
    rcases argmaxAux_mem_bounds xs 0 x 1 with h' | h'
    · simp [h']
    · simp only [List.length_cons]
      omega

/-- The link between the index computed by `argmaxAux` and the running
maximum `argmaxVal`, relative to the full list. -/
theorem argmaxAux_getD :
    ∀ (xs : List ℚ) (outer : List ℚ) (bi : Nat) (bv : ℚ) (i : Nat),
      outer.drop i = xs → outer.getD bi 0 = bv →
      outer.getD (argmaxAux xs bi bv i) 0 = argmaxVal xs bv := by
  intro xs
  induction xs with
  | nil => intro outer bi bv i _ hbv; simpa [argmaxAux, argmaxVal] using hbv
  | cons x xs ih =>
    intro outer bi bv i hdrop hbv
    have hix : outer.getD i 0 = x := by
      have h1 : outer[i]? = some x := by
        rw [← List.head?_drop, hdrop, List.head?_cons]
      simp [List.getD, h1]
    have hdrop' : outer.drop (i + 1) = xs := by
      rw [← List.tail_drop, hdrop, List.tail_cons]
    rw [argmaxAux, argmaxVal]
    split
    · exact ih outer i x (i + 1) hdrop' hix
    · exact ih outer bi bv (i + 1) hdrop' hbv

theorem argmaxVal_spec :
    ∀ (xs : List ℚ) (bv : ℚ),
      bv ≤ argmaxVal xs bv ∧ ∀ y ∈ xs, y ≤ argmaxVal xs bv := by
  intro xs
  induction xs with
  | nil => intro bv; simp [argmaxVal]
  | cons x xs ih =>
    intro bv
    rw [argmaxVal]
    split
    · next hlt =>
      refine ⟨le_of_lt (lt_of_lt_of_le hlt (ih x).1), ?_⟩
      intro y hy
      rcases List.mem_cons.1 hy with rfl | hy'
      · exact (ih y).1
      · exact (ih x).2 y hy'
    · next hnlt =>
      refine ⟨(ih bv).1, ?_⟩
      intro y hy
      rcases List.mem_cons.1 hy with rfl | hy'
      · exact le_trans (le_of_not_lt hnlt) (ih bv).1
      · exact (ih bv).2 y hy'

/-- `sims[np.argmax(sims)]` dominates every similarity. -/
theorem getD_listArgmax_max {l : List ℚ} (h : l ≠ []) :
    ∀ y ∈ l, y ≤ l.getD (listArgmax l) 0 := by
  cases l with
  | nil => exact absurd rfl h
  | cons x xs =>
    rw [listArgmax, argmaxAux_getD xs (x :: xs) 0 x 1 (by simp) (by simp)]
    intro y hy
    rcases List.mem_cons.1 hy with rfl | hy'
    · exact (argmaxVal_spec xs y).1
    · exact (argmaxVal_spec xs x).2 y hy'

/-- `sims[np.argmax(sims)]` is one of the similarities. -/
theorem getD_listArgmax_mem {l : List ℚ} (h : l ≠ []) :
    l.getD (listArgmax l) 0 ∈ l := by
  have hlt := listArgmax_lt_length h
  rw [List.getD_eq_getElem l 0 hlt]
  exact List.getElem_mem hlt

theorem argmaxAux_append_gt :
    ∀ (xs : List ℚ) (c : ℚ) (bi : Nat) (bv : ℚ) (i : Nat),
      (∀ y ∈ xs, y < c) → bv < c →
      argmaxAux (xs ++ [c]) bi bv i = i + xs.length := by
  intro xs
  induction xs with
  | nil =>
    intro c bi bv i _ hbv
    simp [argmaxAux, hbv]
  | cons x xs ih =>
    intro c bi bv i hall hbv
    rw [List.cons_append, argmaxAux]
    have hx : x < c := hall x (List.mem_cons_self _ _)
    have hxs : ∀ y ∈ xs, y < c := fun y hy => hall y (List.mem_cons_of_mem _ hy)
    split
    · rw [ih c i x (i + 1) hxs hx]
      simp only [List.length_cons]
      omega
    · rw [ih c bi bv (i + 1) hxs hbv]
      simp only [List.length_cons]
      omega

/-- Appending a strictly dominating score moves the argmax to it. -/
theorem listArgmax_append_gt {l : List ℚ} {c : ℚ} (h : l ≠ [])
    (hall : ∀ y ∈ l, y < c) : listArgmax (l ++ [c]) = l.length := by
  cases l with
  | nil => exact absurd rfl h
  | cons x xs =>
    rw [List.cons_append, listArgmax,
      argmaxAux_append_gt xs c 0 x 1 (fun y hy => hall y (List.mem_cons_of_mem _ hy))
        (hall x (List.mem_cons_self _ _))]
    simp [Nat.add_comm]

/-- A reachable incremental normalizer has as many stored names as stored
embedding vectors. -/
theorem reachableN_names_length {V : Type} {M : EmbModel V}
    {st : NormalizerState V} (h : ReachableN M st) :
    st.names.length = st.embeddings.length := by
  induction h with
  | init t => rfl
  | step x _ ih =>
    simp only [normalizeN]
    split
    · simp [List.length_append, ih]
    · split
      · simpa using ih
      · simp [List.length_append, ih]

/-- Branch equation: `normalize` on an empty cluster list. -/
theorem normalizeN_empty_eq {V : Type} (M : EmbModel V) (st : NormalizerState V)
    (x : String) (h : st.embeddings.isEmpty = true) :
    normalizeN M st x = (pyStrip (pyLower x),
      { st with embeddings := st.embeddings ++ [normVector M (pyStrip (pyLower x))],
                names := st.names ++ [pyStrip (pyLower x)],
                canonical := dictSet st.canonical (pyStrip (pyLower x))
                  (pyStrip (pyLower x)) }) := by
  simp only [normalizeN, h, if_true]

/-- Branch equation: `normalize` joining an existing cluster (the stored
`names`/`embeddings` are untouched). -/
theorem normalizeN_join_eq {V : Type} (M : EmbModel V) (st : NormalizerState V)
    (x : String) (h : st.embeddings.isEmpty = false)
    (hth : st.threshold < normBestScore M st x) :
    normalizeN M st x =
      ((if (st.names.getD (listArgmax (normSims M st x)) "").length ≤
            (pyStrip (pyLower x)).length
        then st.names.getD (listArgmax (normSims M st x)) ""
        else pyStrip (pyLower x)),
       { st with canonical := dictSet st.canonical (pyStrip (pyLower x))
                   (if (st.names.getD (listArgmax (normSims M st x)) "").length ≤
                       (pyStrip (pyLower x)).length
                    then st.names.getD (listArgmax (normSims M st x)) ""
                    else pyStrip (pyLower x)) }) := by
  simp only [normalizeN, h, Bool.false_eq_true, if_false, if_pos hth]

/-- The similarity row does not depend on the `canonical` map. -/
theorem normSims_canonical {V : Type} (M : EmbModel V) (st : NormalizerState V)
    (c : List (String × String)) (x : String) :
    normSims M { st with canonical := c } x = normSims M st x := rfl

/-- The best score does not depend on the `canonical` map. -/
theorem normBestScore_canonical {V : Type} (M : EmbModel V)
    (st : NormalizerState V) (c : List (String × String)) (x : String) :
    normBestScore M { st with canonical := c } x = normBestScore M st x := rfl

/-- The returned canonical name does not depend on the `canonical` map
(the incremental `normalize` never reads it). -/
theorem normalizeN_fst_canonical {V : Type} (M : EmbModel V)
    (st : NormalizerState V) (c : List (String × String)) (x : String) :
    (normalizeN M { st with canonical := c } x).1 = (normalizeN M st x).1 := by
  simp only [normalizeN, normSims_canonical, normBestScore_canonical,
    apply_ite Prod.fst]

/-- Branch equation: `normalize` opening a new cluster. -/
theorem normalizeN_new_eq {V : Type} (M : EmbModel V) (st : NormalizerState V)
    (x : String) (h : st.embeddings.isEmpty = false)
    (hth : ¬ st.threshold < normBestScore M st x) :
    normalizeN M st x = (pyStrip (pyLower x),
      { st with embeddings := st.embeddings ++ [normVector M (pyStrip (pyLower x))],
                names := st.names ++ [pyStrip (pyLower x)],
                canonical := dictSet st.canonical (pyStrip (pyLower x))
                  (pyStrip (pyLower x)) }) := by
  simp only [normalizeN, h, Bool.false_eq_true, if_false, if_neg hth]

end Food

/-- C7: for every raw string and every reachable incremental-normalizer
state, two successive `normalize(x)` calls return the same canonical name,
PROVIDED the external backend behaves like cosine similarity
(self-similarity 1, every similarity at most 1).  The method has no cache
check: the second call recomputes the similarities, and either repeats the
identical computation (join branch) or rediscovers the vector the first
call just appended, whose self-similarity 1 is the unique maximum when all
prior scores were at most the threshold. -/
theorem normalizeN_idempotent {V : Type} (M : Food.EmbModel V)
    (hself : ∀ v, M.cos v v = 1) (hle : ∀ u w, M.cos u w ≤ 1)
    (st : Food.NormalizerState V) (hst : Food.ReachableN M st) (x : String) :
    (Food.normalizeN M (Food.normalizeN M st x).2 x).1 =
      (Food.normalizeN M st x).1 := by
  have hlen := Food.reachableN_names_length hst
  set ing := Food.pyStrip (Food.pyLower x) with hing
  by_cases hemp : st.embeddings.isEmpty
  · -- the first call creates the very first cluster
    have hemb : st.embeddings = [] := List.isEmpty_iff.1 hemp
    have hnames : st.names = [] := List.length_eq_zero.1 (by rw [hlen, hemb]; rfl)
    rw [Food.normalizeN_empty_eq M st x hemp]
    dsimp only
    set st1 : Food.NormalizerState V :=
      { st with embeddings := st.embeddings ++ [Food.normVector M ing],
                names := st.names ++ [ing],
                canonical := Food.dictSet st.canonical ing ing } with hst1
    have hemp1 : st1.embeddings.isEmpty = false := by
      simp [hst1, hemb]
    have hsims1 : Food.normSims M st1 x = [1] := by
      simp [Food.normSims, hst1, hemb, hself]
    have hbs1 : Food.normBestScore M st1 x = 1 := by
      simp [Food.normBestScore, hsims1, Food.listArgmax, Food.argmaxAux]
    by_cases hth : st.threshold < 1
    · have hth' : st1.threshold < Food.normBestScore M st1 x := by
        rw [hbs1]; exact hth
      rw [Food.normalizeN_join_eq M st1 x hemp1 hth']
      dsimp only
      rw [hsims1]
      simp [hnames, Food.listArgmax, Food.argmaxAux]
    · have hth' : ¬ st1.threshold < Food.normBestScore M st1 x := by
        rw [hbs1]; exact hth
      rw [Food.normalizeN_new_eq M st1 x hemp1 hth']
  · have hemp' : st.embeddings.isEmpty = false := by
      cases h : st.embeddings.isEmpty
      · rfl
      · exact absurd h hemp
    have hne : st.embeddings ≠ [] := fun h => by simp [h] at hemp'
    have hsims_ne : Food.normSims M st x ≠ [] := by
      simp only [Food.normSims, Ne, List.map_eq_nil_iff]
      exact hne
    by_cases hth : st.threshold < Food.normBestScore M st x
    · -- join: embeddings, names and threshold are unchanged, so the second
      -- call repeats the identical computation
      rw [Food.normalizeN_join_eq M st x hemp' hth]
      dsimp only
      rw [Food.normalizeN_fst_canonical M st _ x,
        Food.normalizeN_join_eq M st x hemp' hth]
    · -- new cluster: the second call finds the appended vector
      rw [Food.normalizeN_new_eq M st x hemp' hth]
      dsimp only
      set st1 : Food.NormalizerState V :=
        { st with embeddings := st.embeddings ++ [Food.normVector M ing],
                  names := st.names ++ [ing],
                  canonical := Food.dictSet st.canonical ing ing } with hst1
      have hemp1 : st1.embeddings.isEmpty = false := by
        simp [hst1]
      have hsims1 : Food.normSims M st1 x = Food.normSims M st x ++ [1] := by
        simp [Food.normSims, hst1, hself]
      have hsle : ∀ y ∈ Food.normSims M st x, y ≤ Food.normBestScore M st x :=
        Food.getD_listArgmax_max hsims_ne
      have hlen2 : st.names.length = (Food.normSims M st x).length := by
        rw [hlen]; simp [Food.normSims]
      by_cases hth1 : st.threshold < 1
      · have hall : ∀ y ∈ Food.normSims M st x, y < 1 := fun y hy =>
          lt_of_le_of_lt (le_trans (hsle y hy) (le_of_not_lt hth)) hth1
        have hidx : Food.listArgmax (Food.normSims M st1 x) =
            (Food.normSims M st x).length := by
          rw [hsims1]
          exact Food.listArgmax_append_gt hsims_ne hall
        have hbs1 : Food.normBestScore M st1 x = 1 := by
          rw [Food.normBestScore, hidx, hsims1,
            List.getD_append_right _ _ _ _ le_rfl]
          simp
        have hth' : st1.threshold < Food.normBestScore M st1 x := by
          rw [hbs1]; exact hth1
        rw [Food.normalizeN_join_eq M st1 x hemp1 hth']
        dsimp only
        rw [hidx]
        have hprev : st1.names.getD (Food.normSims M st x).length "" = ing := by
          show (st.names ++ [ing]).getD (Food.normSims M st x).length "" = ing
          rw [List.getD_append_right _ _ _ _ (le_of_eq hlen2), hlen2]
          simp
        rw [hprev]
        simp
      · have hall1 : ∀ y ∈ Food.normSims M st1 x, y ≤ 1 := by
          rw [hsims1]
          intro y hy
          rcases List.mem_append.1 hy with hy' | hy'
          · simp only [Food.normSims, List.mem_map] at hy'
            obtain ⟨e, -, rfl⟩ := hy'
            exact hle _ e
          · simp only [List.mem_singleton] at hy'
            exact le_of_eq hy'
        have hsims1_ne : Food.normSims M st1 x ≠ [] := by
          rw [hsims1]; simp
        have hbs1_le : Food.normBestScore M st1 x ≤ 1 :=
          hall1 _ (Food.getD_listArgmax_mem hsims1_ne)
        have hth' : ¬ st1.threshold < Food.normBestScore M st1 x := by
          intro hcon
          have h1 : (1 : ℚ) ≤ st.threshold := le_of_not_lt hth1
          exact absurd (lt_of_le_of_lt h1 hcon) (not_lt.2 hbs1_le)
        rw [Food.normalizeN_new_eq M st1 x hemp1 hth']

/-- C7 witness: a fresh normalizer with the default threshold 0.75 and a
cosine-like backend maps `"Warm Water "` to the same canonical name twice. -/
theorem normalizeN_idempotent_witness :
    (Food.normalizeN Food.unitModel
        (Food.normalizeN Food.unitModel (Food.initNormalizer Unit (3/4)) "Warm Water ").2
        "Warm Water ").1 =
      (Food.normalizeN Food.unitModel (Food.initNormalizer Unit (3/4)) "Warm Water ").1 :=
  normalizeN_idempotent Food.unitModel (fun _ => rfl) (fun _ _ => le_refl 1)
    (Food.initNormalizer Unit (3/4)) (Food.ReachableN.init (3/4)) "Warm Water "

/-! ## Claim C3 -/

/-- C3 (amended): when a new name's best-match similarity exceeds the
threshold, the canonical recorded for the new name is the shorter of the
cluster's FIRST-CHOSEN representative and the new name (ties keep the
representative); the stored representative list is never rewritten — it is
unchanged on a join and append-only otherwise — so the canonical is NOT in
general the shortest mutually-similar name seen so far.  Below the
threshold the new name starts its own cluster with itself as canonical. -/
theorem normalizeN_join_shorter_of_first_rep {V : Type} (M : Food.EmbModel V)
    (st : Food.NormalizerState V) (x : String)
    (hne : st.embeddings.isEmpty = false) :
    ((Food.normalizeN M st x).2.names = st.names ∨
      (Food.normalizeN M st x).2.names =
        st.names ++ [Food.pyStrip (Food.pyLower x)]) ∧
    (st.threshold < Food.normBestScore M st x →
      (Food.normalizeN M st x).1 =
        (if (st.names.getD (Food.listArgmax (Food.normSims M st x)) "").length ≤
            (Food.pyStrip (Food.pyLower x)).length
         then st.names.getD (Food.listArgmax (Food.normSims M st x)) ""
         else Food.pyStrip (Food.pyLower x)) ∧
      (Food.normalizeN M st x).2.names = st.names) ∧
    (¬ st.threshold < Food.normBestScore M st x →
      (Food.normalizeN M st x).1 = Food.pyStrip (Food.pyLower x) ∧
      (Food.normalizeN M st x).2.names =
        st.names ++ [Food.pyStrip (Food.pyLower x)]) := by
  refine ⟨?_, ?_, ?_⟩
  · by_cases h : st.threshold < Food.normBestScore M st x
    · left
      rw [Food.normalizeN_join_eq M st x hne h]
    · right
      rw [Food.normalizeN_new_eq M st x hne h]
  · intro h
    rw [Food.normalizeN_join_eq M st x hne h]
    exact ⟨rfl, rfl⟩
  · intro h
    rw [Food.normalizeN_new_eq M st x hne h]
    exact ⟨rfl, rfl⟩

/-- C3: the claim as stated is false on the code.  With a backend on which
everything has similarity 1 and threshold 0: after `"aa"` then `"b"` (which
joins the cluster and gets canonical `"b"`), the cluster representative is
still `"aa"` (the claim says it should have become the shorter `"b"`), and
the next member `"cc"` gets canonical `"aa"`, not the shortest
mutually-similar name `"b"` seen so far. -/
theorem normalizeN_counterexample :
    (Food.normalizeN Food.unitModel
        ((Food.normalizeN Food.unitModel (Food.initNormalizer Unit 0) "aa").2)
        "b").1 = "b" ∧
    ((Food.normalizeN Food.unitModel
        ((Food.normalizeN Food.unitModel (Food.initNormalizer Unit 0) "aa").2)
        "b").2).names = ["aa"] ∧
    (Food.normalizeN Food.unitModel
        ((Food.normalizeN Food.unitModel
          ((Food.normalizeN Food.unitModel (Food.initNormalizer Unit 0) "aa").2)
          "b").2) "cc").1 = "aa" := by
  refine ⟨by decide, by decide, by decide⟩

/-- C3 witness: the spec's own clustering example — after `"warm water"`,
normalizing `"water"` joins the cluster, gets the shorter name `"water"` as
canonical, and leaves the stored representative `"warm water"` unchanged. -/
theorem normalizeN_join_shorter_witness :
    (Food.normalizeN Food.unitModel
      ((Food.normalizeN Food.unitModel (Food.initNormalizer Unit 0) "warm water").2)
      "water").1 = "water" ∧
    ((Food.normalizeN Food.unitModel
      ((Food.normalizeN Food.unitModel (Food.initNormalizer Unit 0) "warm water").2)
      "water").2).names = ["warm water"] := by
  have h := normalizeN_join_shorter_of_first_rep Food.unitModel
    ((Food.normalizeN Food.unitModel (Food.initNormalizer Unit 0) "warm water").2)
    "water" (by decide)
  have hj := h.2.1 (by decide)
  refine ⟨?_, ?_⟩
  · rw [hj.1]
    decide
  · rw [hj.2]
    decide

/-! ## Claim C10 -/

/-- C10: the staged/batch normalizer's `normalize` is a pure lookup: it
leaves the whole state (staged set, threshold, embeddings, names,
canonical map) unchanged, and when the lower-cased trimmed input has no
entry in the canonical map (i.e. was not recorded by a prior
`build_embeddings` pass) it returns the lower-cased trimmed input itself. -/
theorem normalizeStaged_pure_lookup {V : Type} (st : Food.StagedState V)
    (x : String) :
    (Food.normalizeStaged st x).2 = st ∧
    ((st.canonical.find? fun p => p.1 == Food.pyStrip (Food.pyLower x)) = none →
      (Food.normalizeStaged st x).1 = Food.pyStrip (Food.pyLower x)) := by
  constructor
  · rfl
  · intro h
    simp [Food.normalizeStaged, Food.dictGetD, h]

/-- C10 witness: on a fresh staged normalizer, `normalize(" Warm Water ")`
returns `"warm water"` and the state is untouched. -/
theorem normalizeStaged_pure_lookup_witness :
    (Food.normalizeStaged (⟨[], 0, [], [], []⟩ : Food.StagedState Unit)
        " Warm Water ").2 = (⟨[], 0, [], [], []⟩ : Food.StagedState Unit) ∧
    (Food.normalizeStaged (⟨[], 0, [], [], []⟩ : Food.StagedState Unit)
        " Warm Water ").1 = "warm water" := by
  have h := normalizeStaged_pure_lookup
    (⟨[], 0, [], [], []⟩ : Food.StagedState Unit) " Warm Water "
  refine ⟨h.1, ?_⟩
  rw [h.2 (by decide)]
  decide

/-! ## Claim C4 -/

/-- C4 (amended): for every backend, threshold and input, `classify`
returns a label from the CODE's closed set
{Breakfast, Lunch, Dinner, Desert, Drink} ∪ {"Other"} — the code spells
`"Desert"`, not `"Dessert"` — and whenever the best cosine-similarity
score is strictly below the threshold it returns `"Other"`. -/
theorem classify_closed_label_set {V : Type} (M : Food.EmbModel V) (t : ℚ)
    (text : String) :
    Food.classify M (Food.mkMealTypeEmbedder M t) text ∈
      ["Breakfast", "Lunch", "Dinner", "Desert", "Drink", "Other"] ∧
    (Food.mealBestScore M (Food.mkMealTypeEmbedder M t) text < t →
      Food.classify M (Food.mkMealTypeEmbedder M t) text = "Other") := by
  constructor
  · by_cases h : (Food.mkMealTypeEmbedder M t).threshold ≤
        Food.mealBestScore M (Food.mkMealTypeEmbedder M t) text
    · have hv : Food.classify M (Food.mkMealTypeEmbedder M t) text =
          (Food.mkMealTypeEmbedder M t).meal_types.getD
            (Food.listArgmax (Food.mealSims M (Food.mkMealTypeEmbedder M t) text))
            "" := by
        simp [Food.classify, Food.classify_bulk, h]
      rw [hv]
      have hlen : (Food.mealSims M (Food.mkMealTypeEmbedder M t) text).length = 5 := by
        simp [Food.mealSims, Food.mkMealTypeEmbedder]
      have hne : Food.mealSims M (Food.mkMealTypeEmbedder M t) text ≠ [] := by
        intro hnil
        rw [hnil] at hlen
        simp at hlen
      have hlt : Food.listArgmax
          (Food.mealSims M (Food.mkMealTypeEmbedder M t) text) < 5 := by
        have := Food.listArgmax_lt_length hne
        omega
      set i := Food.listArgmax (Food.mealSims M (Food.mkMealTypeEmbedder M t) text)
        with hi
      interval_cases i <;> simp [Food.mkMealTypeEmbedder]
    · have hv : Food.classify M (Food.mkMealTypeEmbedder M t) text = "Other" := by
        simp [Food.classify, Food.classify_bulk, h]
      rw [hv]
      simp
  · intro h
    have h' : ¬ (Food.mkMealTypeEmbedder M t).threshold ≤
        Food.mealBestScore M (Food.mkMealTypeEmbedder M t) text :=
      not_le.2 h
    simp [Food.classify, Food.classify_bulk, h']

/-- C4: the claim as stated is false on the code: the label list is
`["Breakfast", "Lunch", "Dinner", "Desert", "Drink"]`, so a title whose
best label is the fourth one is classified `"Desert"`, which is not in the
claim's set {Breakfast, Lunch, Dinner, Dessert, Drink, Other}. -/
theorem classify_desert_counterexample :
    Food.classify Food.desertModel (Food.mkMealTypeEmbedder Food.desertModel 1)
        "desert sundae" = "Desert" ∧
    "Desert" ∉ ["Breakfast", "Lunch", "Dinner", "Dessert", "Drink", "Other"] := by
  exact ⟨by decide, by decide⟩

/-- C4 witness: with a backend giving every title similarity 0 and
threshold 1, the spec's weak-signal example `"Water"` classifies as
`"Other"`, which is in the closed label set. -/
theorem classify_closed_label_set_witness :
    Food.classify Food.zeroModel (Food.mkMealTypeEmbedder Food.zeroModel 1)
        "Water" = "Other" ∧
    Food.classify Food.zeroModel (Food.mkMealTypeEmbedder Food.zeroModel 1)
        "Water" ∈ ["Breakfast", "Lunch", "Dinner", "Desert", "Drink", "Other"] := by
  have h := classify_closed_label_set Food.zeroModel 1 "Water"
  exact ⟨h.2 (by decide), h.1⟩

/-! ## Claim C9 -/

namespace Food

/-- The batch loop decomposes into independent per-batch contributions:
each batch adds its own record count on success and its own indexed error
message on failure, regardless of what happened to every other batch. -/
theorem loadBatchesAux_spec {Row Rec : Type} (toRecord : Row → Except String Rec)
    (run : List Rec → Except String Unit) :
    ∀ (bs : List (List Row)) (idx : Nat) (tp : Nat) (errs : List String),
      loadBatchesAux toRecord run idx bs (tp, errs) =
        (tp + (bs.map (batchContribution toRecord run)).sum,
         errs ++ (List.enumFrom idx bs).filterMap fun p =>
           batchError toRecord run p.1 p.2) := by
  intro bs
  induction bs with
  | nil => intro idx tp errs; simp [loadBatchesAux]
  | cons b bs ih =>
    intro idx tp errs
    rw [loadBatchesAux]
    by_cases hrec : (extractRecords toRecord b).isEmpty
    · have hpb : processBatch run (tp, errs) idx (extractRecords toRecord b) =
          (tp, errs) := by
        simp [processBatch, hrec]
      rw [hpb, ih]
      simp [batchContribution, batchError, hrec]
    · cases hrun : run (extractRecords toRecord b) with
      | ok u =>
        have hpb : processBatch run (tp, errs) idx (extractRecords toRecord b) =
            (tp + (extractRecords toRecord b).length, errs) := by
          simp [processBatch, hrec, hrun]
        rw [hpb, ih]
        simp [batchContribution, batchError, hrec, hrun, Nat.add_assoc]
      | error e =>
        have hpb : processBatch run (tp, errs) idx (extractRecords toRecord b) =
            (tp, errs ++ ["Error in batch " ++ toString idx ++ ": " ++ e]) := by
          simp [processBatch, hrec, hrun]
        rw [hpb, ih]
        simp [batchContribution, batchError, hrec, hrun]

end Food

/-- C9: an exception while writing one batch is caught, recorded as
`"Error in batch {idx}: {msg}"`, and does not prevent any other batch from
being processed: `total_processed` is the sum of the independent per-batch
contributions (a failed or empty batch contributes 0, successful batches
their record count, wherever they sit in the sequence), the error list is
exactly the indexed messages of the failing batches, and the returned list
is capped at length 10 (`errors[:10]`). -/
theorem recipeLoadData_batch_isolation {Row Rec : Type}
    (toRecord : Row → Except String Rec) (run : List Rec → Except String Unit)
    (batches : List (List Row)) :
    (Food.recipeLoadData toRecord run batches).total_processed =
      (batches.map (Food.batchContribution toRecord run)).sum ∧
    (Food.recipeLoadData toRecord run batches).errors =
      (batches.enum.filterMap fun p =>
        Food.batchError toRecord run p.1 p.2).take 10 ∧
    (Food.recipeLoadData toRecord run batches).errors.length ≤ 10 := by
  have h := Food.loadBatchesAux_spec toRecord run batches 0 0 []
  refine ⟨?_, ?_, ?_⟩
  · simp [Food.recipeLoadData, h]
  · simp [Food.recipeLoadData, h, List.enum]
  · simp only [Food.recipeLoadData, h]
    exact List.length_take_le 10 _

/-! ## Claim C5 -/

set_option maxRecDepth 10000

/-- C5: the claim as stated is false on the code.  `extract_core_ingredient`
is NOT applied identically to both sides: on the known ingredient
`"sun-dried tomatoes"` it yields `"sun tomatoes"` (the descriptor `"dried"`
is matched inside `"sun-dried"` because `-` is a word boundary), while on
the product description it yields `"tomatoes jar"` — two different core
phrases. -/
theorem extract_core_ingredient_counterexample :
    Food.extract_core_ingredient "sun-dried tomatoes" = some "sun tomatoes" ∧
    Food.extract_core_ingredient "Organic Sun-Dried Tomatoes, 8oz jar" =
      some "tomatoes jar" ∧
    ("sun tomatoes" : String) ≠ "tomatoes jar" := by
  refine ⟨by decide, by decide, by decide⟩

/-- C5 (amended): `load_data` applies `extract_core_ingredient` only to the
stored ingredient names; product descriptions are matched raw (lower-cased
and trimmed) by whole-word occurrence of the processed name.  For the
spec's example the processed known ingredient is `"sun tomatoes"`, which
does not occur in `"organic sun-dried tomatoes, 8oz jar"`, so the price
record does NOT link to the ingredient. -/
theorem extract_core_ingredient_no_link :
    Food.extract_core_ingredient "sun-dried tomatoes" = some "sun tomatoes" ∧
    Food.matchIngredientWord "sun tomatoes"
      (Food.pyStrip (Food.pyLower "Organic Sun-Dried Tomatoes, 8oz jar")) =
      false := by
  refine ⟨by decide, by decide⟩
